import Mathlib

/-!
Verification development for the realistic-typing engine in
`pythonlib/camoufox/realistic_input.py`.

The module is embedded shallowly: every randomized primitive of the
source (`random.random`, `random.uniform`, `random.randint`,
`random.choice`, `random.choices`) is modelled as a deterministic
function of an injectable draw stream (`Rng`), and the engine's
`await`-sequenced keyboard/mouse/sleep calls are modelled as a pure
list of emitted events.  A single counter indexes the draw streams in
the exact order the source consumes randomness.

Characters are treated with ASCII semantics for `isupper`, `isdigit`,
`isalpha`, `lower` and `upper`, matching the character sets the source
actually manipulates.
-/

namespace RealisticInput

/-- One physical operation dispatched to the external automation driver:
keyboard `down`/`up`/`press`, the raw-typing fallback, mouse clicks, and
clock suspensions (`sleep`, in seconds). -/
inductive Ev where
  | down (key : String)
  | up (key : String)
  | press (key : String)
  | typeRaw (c : Char)
  | click (x y : ℤ)
  | clickSelector
  | sleep (seconds : ℚ)
deriving DecidableEq, Repr

/-- Provenance of an emitted event: `real` events realize the caller's text,
`injected` events belong to a simulated mistake (wrong key, reaction pause,
backspace, post-correction pause). -/
inductive Tag where
  | real
  | injected
deriving DecidableEq, Repr

/-- A tagged event. -/
abbrev TEv := Tag × Ev

/-- Injectable random source: `rats n` is the `n`-th rational draw
(used for `random.random` and the unit position of `random.uniform`),
`nats n` the `n`-th natural draw (used for `random.randint`,
`random.choice` and `random.choices`).  A shared counter preserves the
order in which the source consumes randomness. -/
structure Rng where
  rats : ℕ → ℚ
  nats : ℕ → ℕ

/-- Clamp a rational into `[0, 1]`; models the contract that a unit draw
of the random port lies in the unit interval. -/
def clamp01 (t : ℚ) : ℚ := if t ≤ 0 then 0 else if 1 ≤ t then 1 else t

/-- Python `max(a, b)` on integers. -/
def pyMax (a b : ℤ) : ℤ := if a ≤ b then b else a

/-- `random.uniform(a, b)` given the unit draw `t`. -/
def pyUniform (a b t : ℚ) : ℚ := a + (b - a) * clamp01 t

/-- `random.random()` given the unit draw `t`. -/
def pyRandom (t : ℚ) : ℚ := clamp01 t

/-- `random.randint(a, b)` (both ends inclusive) given the natural draw `k`. -/
def pyRandInt (a b : ℤ) (k : ℕ) : ℤ := a + (k : ℤ) % (b - a + 1)

/-- Python `int(...)` on a rational: truncation toward zero. -/
def pyInt (q : ℚ) : ℤ := if 0 ≤ q then ⌊q⌋ else ⌈q⌉

/-- The character of `'e' 't' 'a' 'o' 'i' 'n' 's' 'h' 'r' 'd' 'l' 'u'`
(source: membership test `char.lower() in 'etaoinshrdlu'`). -/
def homeRowChars : List Char :=
  ['e', 't', 'a', 'o', 'i', 'n', 's', 'h', 'r', 'd', 'l', 'u']

/-- Source: `char.lower() in 'qzxjkv'`. -/
def difficultChars : List Char := ['q', 'z', 'x', 'j', 'k', 'v']

/-- The double-quote character. -/
def chQuote : Char := Char.ofNat 34

/-- The single-quote character. -/
def chApos : Char := Char.ofNat 39

/-- The backtick character. -/
def chBacktick : Char := Char.ofNat 96

/-- The left curly-bracket character. -/
def chLBrace : Char := Char.ofNat 123

/-- The right curly-bracket character. -/
def chRBrace : Char := Char.ofNat 125

/-- Source: the multiplier test `char in '!@#$%^&*()_+{}|:"<>?'`. -/
def shiftedSymbolChars : List Char :=
  ['!', '@', '#', '$', '%', '^', '&', '*', '(', ')', '_', '+',
   chLBrace, chRBrace, '|', ':', chQuote, '<', '>', '?']

/-- Source: the multiplier test over the unshifted symbol string
`-=[]\;',./` (backslash and single quote written via code points). -/
def unshiftedSymbolChars : List Char :=
  ['-', '=', '[', ']', (Char.ofNat 92), ';', chApos, ',', '.', '/']

/-- `_get_char_difficulty_multiplier`: the if/elif chain of the source,
first match wins. -/
def get_char_difficulty_multiplier (c : Char) : ℚ :=
  if c.toLower ∈ homeRowChars then 7/10
  else if c.toLower ∈ difficultChars then 8/5
  else if c.isUpper then 13/10
  else if c.isDigit then 6/5
  else if c ∈ shiftedSymbolChars then 9/5
  else if c ∈ unshiftedSymbolChars then 11/10
  else 1

/-- The `keyboard_layout` dict of `_get_adjacent_key`. -/
def keyboard_layout : List (Char × List Char) :=
  [('q', ['w', 'a']), ('w', ['q', 'e', 's', 'r']), ('e', ['w', 'r', 'd', 't']),
   ('r', ['e', 't', 'f', 'g']), ('t', ['r', 'y', 'g', 'f']),
   ('y', ['t', 'u', 'h', 'g']), ('u', ['y', 'i', 'h', 'j']),
   ('i', ['u', 'o', 'j', 'k']), ('o', ['i', 'p', 'k', 'l']), ('p', ['o', 'l']),
   ('a', ['q', 's', 'w']), ('s', ['a', 'w', 'e', 'd', 'z']),
   ('d', ['s', 'e', 'r', 'f', 'x']), ('f', ['d', 'r', 't', 'g', 'c']),
   ('g', ['f', 't', 'y', 'h', 'v']), ('h', ['g', 'y', 'u', 'j', 'b']),
   ('j', ['h', 'u', 'i', 'k', 'n']), ('k', ['j', 'i', 'o', 'l', 'm']),
   ('l', ['k', 'o', 'p']), ('z', ['s', 'x']), ('x', ['z', 'd', 'c']),
   ('c', ['x', 'f', 'v']), ('v', ['c', 'g', 'b']), ('b', ['v', 'h', 'n']),
   ('n', ['b', 'h', 'm']), ('m', ['n', 'j'])]

/-- The fallback string `'qwerty'` of `_get_adjacent_key`. -/
def qwertyChars : List Char := ['q', 'w', 'e', 'r', 't', 'y']

/-- `_get_adjacent_key`: dict lookup on the lowercased character with
default `'qwerty'`, then `random.choice` over the candidate string,
modelled by indexing with the natural draw `k` modulo the length. -/
def get_adjacent_key (c : Char) (k : ℕ) : Char :=
  let adjacent := (keyboard_layout.lookup c.toLower).getD qwertyChars
  adjacent.getD (k % adjacent.length) 'q'

/-- Source: the condition string `'!@#$%^&*()'` of `_press_character_key`. -/
def shiftedDigitChars : List Char :=
  ['!', '@', '#', '$', '%', '^', '&', '*', '(', ')']

/-- The `shift_map` dict of the shifted-digit branch. -/
def shiftDigitMap : List (Char × String) :=
  [('!', "Digit1"), ('@', "Digit2"), ('#', "Digit3"), ('$', "Digit4"),
   ('%', "Digit5"), ('^', "Digit6"), ('&', "Digit7"), ('*', "Digit8"),
   ('(', "Digit9"), (')', "Digit0")]

/-- Source: the condition string `'_+{}|:"<>?'` of `_press_character_key`. -/
def otherShiftedChars : List Char :=
  ['_', '+', chLBrace, chRBrace, '|', ':', chQuote, '<', '>', '?']

/-- The `shift_map` dict of the other-shifted-symbol branch. -/
def shiftSymbolMap : List (Char × String) :=
  [('_', "Minus"), ('+', "Equal"), (chLBrace, "BracketLeft"),
   (chRBrace, "BracketRight"), ('|', "Backslash"), (':', "Semicolon"),
   (chQuote, "Quote"), ('<', "Comma"), ('>', "Period"), ('?', "Slash")]

/-- The `special_map` dict of the final branch. -/
def specialCharMap : List (Char × String) :=
  [('-', "Minus"), ('=', "Equal"), ('[', "BracketLeft"), (']', "BracketRight"),
   ((Char.ofNat 92), "Backslash"), (';', "Semicolon"), (chApos, "Quote"),
   (',', "Comma"), ('.', "Period"), ('/', "Slash"), (chBacktick, "Backquote"),
   (' ', "Space")]

/-- `_press_character_key`: one character resolved to its physical key
events, with the small intra-chord jitters the source sleeps between
`down`/`press`/`up`.  Counter-consuming draws: the two intra-chord
jitters of the Shift-wrapped branches.  The `none` arms of the two
shifted-symbol branches are unreachable (the membership strings are
exactly the dict keys); they are modelled as the raw-typing fallback the
surrounding code uses for unmapped characters. -/
def press_character_key (rng : Rng) (t : Tag) (c : Char) (n : ℕ) :
    List TEv × ℕ :=
  if c.isUpper then
    ([(t, .down "Shift"), (t, .sleep (pyUniform (1/50) (3/50) (rng.rats n))),
      (t, .press (String.push "Key" c.toUpper)),
      (t, .sleep (pyUniform (1/50) (3/50) (rng.rats (n+1)))),
      (t, .up "Shift")], n + 2)
  else if c ∈ shiftedDigitChars then
    match shiftDigitMap.lookup c with
    | some key =>
      ([(t, .down "Shift"), (t, .sleep (pyUniform (1/50) (1/20) (rng.rats n))),
        (t, .press key),
        (t, .sleep (pyUniform (1/50) (1/20) (rng.rats (n+1)))),
        (t, .up "Shift")], n + 2)
    | none => ([(t, .typeRaw c)], n)
  else if c ∈ otherShiftedChars then
    match shiftSymbolMap.lookup c with
    | some key =>
      ([(t, .down "Shift"), (t, .sleep (pyUniform (1/50) (1/20) (rng.rats n))),
        (t, .press key),
        (t, .sleep (pyUniform (1/50) (1/20) (rng.rats (n+1)))),
        (t, .up "Shift")], n + 2)
    | none => ([(t, .typeRaw c)], n)
  else if c.isAlpha then
    ([(t, .press (String.push "Key" c.toUpper))], n)
  else if c.isDigit then
    ([(t, .press (String.push "Digit" c))], n)
  else
    match specialCharMap.lookup c with
    | some key => ([(t, .press key)], n)
    | none => ([(t, .typeRaw c)], n)

/-- The `delay` variable of `_type_single_char`: with `random_delay` the
base delay is scaled by the difficulty multiplier and a uniform(0.7,1.4)
draw, truncated to an int and floored at 20ms; otherwise the base delay
is used as is. -/
def char_delay (rng : Rng) (c : Char) (base : ℤ) (random_delay : Bool)
    (n : ℕ) : ℤ :=
  if random_delay then
    pyMax 20 (pyInt ((base : ℚ) * get_char_difficulty_multiplier c *
      pyUniform (7/10) (7/5) (rng.rats n)))
  else base

/-- The `actual_delay` variable of `_type_single_char`: the computed
delay plus the unconditional `random.randint(-15, 15)` jitter, in
milliseconds. -/
def jittered_delay (rng : Rng) (c : Char) (base : ℤ) (random_delay : Bool)
    (n k : ℕ) : ℤ :=
  char_delay rng c base random_delay n + pyRandInt (-15) 15 k

/-- `_type_single_char`: emits the character's key events followed by
the suspension of `actual_delay / 1000` seconds.  With `random_delay`
the uniform(0.7,1.4) draw is consumed before the key events; the
`randint` jitter draw is consumed after them, as in the source. -/
def type_single_char (rng : Rng) (t : Tag) (c : Char) (base : ℤ)
    (random_delay : Bool) (n : ℕ) : List TEv × ℕ :=
  let n₁ := if random_delay then n + 1 else n
  let p := press_character_key rng t c n₁
  (p.1 ++ [(t, .sleep
      ((jittered_delay rng c base random_delay n (rng.nats p.2) : ℚ) / 1000))],
   p.2 + 1)

/-- The mistake branch of `_type_word_realistic`: the adjacent wrong key
is chosen and typed, a reaction pause of uniform(0.1,0.5)s follows, then
`Backspace` is pressed and a post-correction pause of uniform(0.05,0.2)s
follows.  All events are tagged `injected`. -/
def mistake_events (rng : Rng) (c : Char) (base : ℤ) (random_delay : Bool)
    (n : ℕ) : List TEv × ℕ :=
  let wrong := get_adjacent_key c (rng.nats n)
  let w := type_single_char rng .injected wrong base random_delay (n + 1)
  (w.1 ++ [(.injected, .sleep (pyUniform (1/10) (1/2) (rng.rats w.2))),
           (.injected, .press "Backspace"),
           (.injected, .sleep (pyUniform (1/20) (1/5) (rng.rats (w.2 + 1))))],
   w.2 + 2)

/-- One iteration of the per-character loop of `_type_word_realistic`:
a possible injected mistake (guarded by `human_mistakes and random_delay
and random.random() < 0.03`), then the intended character, then a
possible 8%-chance micro-pause of uniform(0.02,0.08)s. -/
def type_char_step (rng : Rng) (c : Char) (base : ℤ)
    (random_delay human_mistakes : Bool) (n : ℕ) : List TEv × ℕ :=
  let pre : List TEv × ℕ :=
    if human_mistakes && random_delay then
      if pyRandom (rng.rats n) < 3/100 then
        mistake_events rng c base random_delay (n + 1)
      else ([], n + 1)
    else ([], n)
  let ce := type_single_char rng .real c base random_delay pre.2
  let micro : List TEv × ℕ :=
    if pyRandom (rng.rats ce.2) < 2/25 then
      ([(.real, .sleep (pyUniform (1/50) (2/25) (rng.rats (ce.2 + 1))))],
       ce.2 + 2)
    else ([], ce.2 + 1)
  (pre.1 ++ ce.1 ++ micro.1, micro.2)

/-- `_type_word_realistic`: the per-character loop over one word. -/
def type_word_realistic (rng : Rng) (word : List Char) (base : ℤ)
    (random_delay human_mistakes : Bool) (n : ℕ) : List TEv × ℕ :=
  match word with
  | [] => ([], n)
  | c :: cs =>
    let e := type_char_step rng c base random_delay human_mistakes n
    let r := type_word_realistic rng cs base random_delay human_mistakes e.2
    (e.1 ++ r.1, r.2)

/-- The four `(lo, hi)` pause ranges of the thinking-pause categories,
in the order short, medium, long, thinking of the source's
`random.choices` list. -/
def pause_ranges (i : ℕ) : ℚ × ℚ :=
  if i = 0 then (1/20, 3/20)
  else if i = 1 then (1/5, 1/2)
  else if i = 2 then (3/5, 6/5)
  else (1, 5/2)

/-- The pause drawn at a word boundary: a weighted category pick plus a
uniform draw when `thinking_pauses`, a bare uniform(0.05,0.15)s draw
otherwise.  Returns the pause and the advanced counter. -/
def word_boundary_pause (rng : Rng) (thinking_pauses : Bool) (n : ℕ) :
    ℚ × ℕ :=
  if thinking_pauses then
    let r := pause_ranges (rng.nats n % 4)
    (pyUniform r.1 r.2 (rng.rats (n + 1)), n + 2)
  else (pyUniform (1/20) (3/20) (rng.rats n), n + 1)

/-- The word-boundary block of `type_realistically`: the pause, the
`Space` press, and the short uniform(0.05,0.12)s post-space pause. -/
def word_boundary (rng : Rng) (thinking_pauses : Bool) (n : ℕ) :
    List TEv × ℕ :=
  let p := word_boundary_pause rng thinking_pauses n
  ([(.real, .sleep p.1), (.real, .press "Space"),
    (.real, .sleep (pyUniform (1/20) (3/25) (rng.rats p.2)))], p.2 + 1)

/-- The loop body for every word after the first: boundary block, then
the word itself. -/
def type_rest_words (rng : Rng) (ws : List (List Char)) (base : ℤ)
    (random_delay human_mistakes thinking_pauses : Bool) (n : ℕ) :
    List TEv × ℕ :=
  match ws with
  | [] => ([], n)
  | w :: rest =>
    let b := word_boundary rng thinking_pauses n
    let e := type_word_realistic rng w base random_delay human_mistakes b.2
    let r := type_rest_words rng rest base random_delay human_mistakes
      thinking_pauses e.2
    (b.1 ++ e.1 ++ r.1, r.2)

/-- Python `text.split(' ')` on a character list, returned as a head
word plus the remaining words (the result of `split` is never empty). -/
def pySplitF : List Char → List Char × List (List Char)
  | [] => ([], [])
  | c :: cs =>
    let r := pySplitF cs
    if c = ' ' then ([], r.1 :: r.2) else (c :: r.1, r.2)

/-- `type_realistically`: split into words, type the first word without
a boundary, every further word behind its boundary block, then the final
uniform(0.1,0.3)s pause. -/
def type_realistically (rng : Rng) (text : List Char) (base : ℤ)
    (random_delay human_mistakes thinking_pauses : Bool) : List TEv :=
  let ws := pySplitF text
  let e := type_word_realistic rng ws.1 base random_delay human_mistakes 0
  let r := type_rest_words rng ws.2 base random_delay human_mistakes
    thinking_pauses e.2
  e.1 ++ r.1 ++ [(.real, .sleep (pyUniform (1/10) (3/10) (rng.rats r.2)))]

/-- The press-down phase of `_press_key_combo`: each key down followed by
a uniform(0.01,0.03)s jitter. -/
def combo_downs (rng : Rng) (keys : List String) (n : ℕ) : List Ev × ℕ :=
  match keys with
  | [] => ([], n)
  | k :: ks =>
    let r := combo_downs rng ks (n + 1)
    (Ev.down k :: Ev.sleep (pyUniform (1/100) (3/100) (rng.rats n)) :: r.1,
     r.2)

/-- The release phase of `_press_key_combo`: each key up followed by a
uniform(0.01,0.03)s jitter (the caller passes the reversed key list). -/
def combo_ups (rng : Rng) (keys : List String) (n : ℕ) : List Ev × ℕ :=
  match keys with
  | [] => ([], n)
  | k :: ks =>
    let r := combo_ups rng ks (n + 1)
    (Ev.up k :: Ev.sleep (pyUniform (1/100) (3/100) (rng.rats n)) :: r.1,
     r.2)

/-- `_press_key_combo`: hold the keys down in order, pause
uniform(0.02,0.05)s with all held, release in reverse order. -/
def press_key_combo (rng : Rng) (keys : List String) (n : ℕ) :
    List Ev × ℕ :=
  let d := combo_downs rng keys n
  let u := combo_ups rng keys.reverse (d.2 + 1)
  (d.1 ++ Ev.sleep (pyUniform (1/50) (1/20) (rng.rats d.2)) :: u.1, u.2)

/-- `clear_field`: optional selector click with a uniform(0.1,0.3)s
pause, then one of the four clearing strategies picked by
`random.choice(['ctrl_a', 'triple_click', 'select_all',
'end_shift_home'])` (index draw modulo 4; index 2, `'select_all'`, falls
to the source's `else` branch), then the converging tail: a
uniform(0.1,0.2)s pause, `Press(Delete)`, a uniform(0.05,0.15)s pause. -/
def clear_field (rng : Rng) (hasSelector : Bool) : List Ev :=
  let pre : List Ev × ℕ :=
    if hasSelector then
      ([Ev.clickSelector, Ev.sleep (pyUniform (1/10) (3/10) (rng.rats 0))], 1)
    else ([], 0)
  let m := rng.nats pre.2 % 4
  let n₁ := pre.2 + 1
  let body : List Ev × ℕ :=
    if m = 0 then press_key_combo rng ["Control", "KeyA"] n₁
    else if m = 1 then
      ([Ev.click 0 0, Ev.sleep (pyUniform (1/20) (1/10) (rng.rats n₁)),
        Ev.click 0 0, Ev.sleep (pyUniform (1/20) (1/10) (rng.rats (n₁ + 1))),
        Ev.click 0 0, Ev.sleep (pyUniform (1/20) (1/10) (rng.rats (n₁ + 2)))],
       n₁ + 3)
    else if m = 3 then
      let cmb := press_key_combo rng ["Shift", "Home"] (n₁ + 1)
      (Ev.press "End" :: Ev.sleep (pyUniform (1/50) (1/20) (rng.rats n₁)) ::
        cmb.1, cmb.2)
    else press_key_combo rng ["Shift", "Control", "End"] n₁
  pre.1 ++ body.1 ++
    [Ev.sleep (pyUniform (1/10) (1/5) (rng.rats body.2)), Ev.press "Delete",
     Ev.sleep (pyUniform (1/20) (3/20) (rng.rats (body.2 + 1)))]

/-- Whether an event is a key event (as opposed to a mouse click or a
clock suspension). -/
def isKeyEv : Ev → Bool
  | .down _ => true
  | .up _ => true
  | .press _ => true
  | .typeRaw _ => true
  | .click _ _ => false
  | .clickSelector => false
  | .sleep _ => false

/-- The physical key events of a tagged stream, tags erased. -/
def keyEvs : List TEv → List Ev
  | [] => []
  | (_, e) :: rest => if isKeyEv e then e :: keyEvs rest else keyEvs rest

/-- The key events of a tagged stream that realize the caller's text:
injected mistake events are stripped, sleeps and clicks dropped. -/
def realKeys : List TEv → List Ev
  | [] => []
  | (Tag.real, e) :: rest =>
    if isKeyEv e then e :: realKeys rest else realKeys rest
  | (Tag.injected, _) :: rest => realKeys rest

/-- The key mapping of one character: the key events of
`_press_character_key` with the intra-chord sleeps removed. -/
def char_key_events (c : Char) : List Ev :=
  if c.isUpper then
    [.down "Shift", .press (String.push "Key" c.toUpper), .up "Shift"]
  else if c ∈ shiftedDigitChars then
    match shiftDigitMap.lookup c with
    | some key => [.down "Shift", .press key, .up "Shift"]
    | none => [.typeRaw c]
  else if c ∈ otherShiftedChars then
    match shiftSymbolMap.lookup c with
    | some key => [.down "Shift", .press key, .up "Shift"]
    | none => [.typeRaw c]
  else if c.isAlpha then [.press (String.push "Key" c.toUpper)]
  else if c.isDigit then [.press (String.push "Digit" c)]
  else
    match specialCharMap.lookup c with
    | some key => [.press key]
    | none => [.typeRaw c]

/-- Truncated emission of `_press_character_key`: the source contains no
exception handler, so a task cancellation delivered at the `k`-th
dispatched operation stops the emission after the first `k` operations
and propagates; nothing further — in particular no release of a held
modifier — is emitted. -/
def press_character_key_cancelled (rng : Rng) (t : Tag) (c : Char)
    (n k : ℕ) : List TEv :=
  (press_character_key rng t c n).1.take k

/-- An all-zero draw stream, used for concrete evaluations. -/
def rng0 : Rng := ⟨fun _ => 0, fun _ => 0⟩

lemma clamp01_nonneg (t : ℚ) : 0 ≤ clamp01 t := by
  unfold clamp01
  split_ifs <;> linarith

lemma clamp01_le_one (t : ℚ) : clamp01 t ≤ 1 := by
  unfold clamp01
  split_ifs <;> linarith

lemma pyMax_left_le (a b : ℤ) : a ≤ pyMax a b := by
  unfold pyMax
  split_ifs <;> omega

lemma pyMax_eq_max (a b : ℤ) : pyMax a b = max a b := by
  unfold pyMax
  split_ifs with h
  · exact (max_eq_right h).symm
  · exact (max_eq_left (by omega)).symm

lemma le_pyUniform {a b : ℚ} (h : a ≤ b) (t : ℚ) : a ≤ pyUniform a b t := by
  unfold pyUniform
  nlinarith [clamp01_nonneg t, clamp01_le_one t]

lemma pyUniform_le {a b : ℚ} (h : a ≤ b) (t : ℚ) : pyUniform a b t ≤ b := by
  unfold pyUniform
  nlinarith [clamp01_nonneg t, clamp01_le_one t]

lemma pyRandInt_jitter_lower (k : ℕ) : -15 ≤ pyRandInt (-15) 15 k := by
  unfold pyRandInt
  have h15 : (15 : ℤ) - -15 + 1 = 31 := by norm_num
  rw [h15]
  have : 0 ≤ (k : ℤ) % 31 := Int.emod_nonneg _ (by norm_num)
  omega

lemma pyRandInt_jitter_upper (k : ℕ) : pyRandInt (-15) 15 k ≤ 15 := by
  unfold pyRandInt
  have h15 : (15 : ℤ) - -15 + 1 = 31 := by norm_num
  rw [h15]
  have : (k : ℤ) % 31 < 31 := Int.emod_lt_of_pos _ (by norm_num)
  omega

lemma realKeys_append (l₁ l₂ : List TEv) :
    realKeys (l₁ ++ l₂) = realKeys l₁ ++ realKeys l₂ := by
  induction l₁ with
  | nil => rfl
  | cons te rest ih =>
    obtain ⟨t, e⟩ := te
    cases t with
    | real =>
      simp only [List.cons_append, realKeys]
      split <;> simp [ih]
    | injected => simpa [realKeys] using ih

lemma keyEvs_append (l₁ l₂ : List TEv) :
    keyEvs (l₁ ++ l₂) = keyEvs l₁ ++ keyEvs l₂ := by
  induction l₁ with
  | nil => rfl
  | cons te rest ih =>
    obtain ⟨t, e⟩ := te
    simp only [List.cons_append, keyEvs]
    split <;> simp [ih]

lemma realKeys_press_character_key (rng : Rng) (c : Char) (n : ℕ) :
    realKeys (press_character_key rng Tag.real c n).1 = char_key_events c := by
  unfold press_character_key char_key_events
  repeat' split
  all_goals simp [realKeys, isKeyEv]

lemma realKeys_press_character_key_injected (rng : Rng) (c : Char) (n : ℕ) :
    realKeys (press_character_key rng Tag.injected c n).1 = [] := by
  unfold press_character_key
  repeat' split
  all_goals simp [realKeys, isKeyEv]

lemma keyEvs_press_character_key (rng : Rng) (t : Tag) (c : Char) (n : ℕ) :
    keyEvs (press_character_key rng t c n).1 = char_key_events c := by
  unfold press_character_key char_key_events
  repeat' split
  all_goals simp [keyEvs, isKeyEv]

lemma realKeys_type_single_char (rng : Rng) (c : Char) (base : ℤ)
    (rd : Bool) (n : ℕ) :
    realKeys (type_single_char rng Tag.real c base rd n).1 =
      char_key_events c := by
  unfold type_single_char
  simp [realKeys_append, realKeys_press_character_key, realKeys, isKeyEv]

lemma realKeys_type_single_char_injected (rng : Rng) (c : Char) (base : ℤ)
    (rd : Bool) (n : ℕ) :
    realKeys (type_single_char rng Tag.injected c base rd n).1 = [] := by
  unfold type_single_char
  simp [realKeys_append, realKeys_press_character_key_injected, realKeys,
    isKeyEv]

lemma keyEvs_type_single_char (rng : Rng) (t : Tag) (c : Char) (base : ℤ)
    (rd : Bool) (n : ℕ) :
    keyEvs (type_single_char rng t c base rd n).1 = char_key_events c := by
  unfold type_single_char
  simp [keyEvs_append, keyEvs_press_character_key, keyEvs, isKeyEv]

lemma realKeys_mistake_events (rng : Rng) (c : Char) (base : ℤ)
    (rd : Bool) (n : ℕ) :
    realKeys (mistake_events rng c base rd n).1 = [] := by
  unfold mistake_events
  simp [realKeys_append, realKeys_type_single_char_injected, realKeys]

lemma realKeys_type_char_step (rng : Rng) (c : Char) (base : ℤ)
    (rd hm : Bool) (n : ℕ) :
    realKeys (type_char_step rng c base rd hm n).1 = char_key_events c := by
  unfold type_char_step
  repeat' split
  all_goals simp [realKeys_append, realKeys_mistake_events,
    realKeys_type_single_char, realKeys, isKeyEv]
  all_goals (split <;> simp [realKeys, isKeyEv])

lemma realKeys_type_word_realistic (rng : Rng) (w : List Char) (base : ℤ)
    (rd hm : Bool) : ∀ n,
    realKeys (type_word_realistic rng w base rd hm n).1 =
      (w.map char_key_events).flatten := by
  induction w with
  | nil => intro n; rfl
  | cons c cs ih =>
    intro n
    unfold type_word_realistic
    simp [realKeys_append, realKeys_type_char_step, ih]

lemma realKeys_word_boundary (rng : Rng) (tp : Bool) (n : ℕ) :
    realKeys (word_boundary rng tp n).1 = [Ev.press "Space"] := by
  unfold word_boundary
  simp [realKeys, isKeyEv]

lemma realKeys_type_rest_words (rng : Rng) (ws : List (List Char))
    (base : ℤ) (rd hm tp : Bool) : ∀ n,
    realKeys (type_rest_words rng ws base rd hm tp n).1 =
      (ws.map (fun w =>
        Ev.press "Space" :: (w.map char_key_events).flatten)).flatten := by
  induction ws with
  | nil => intro n; rfl
  | cons w rest ih =>
    intro n
    unfold type_rest_words
    simp [realKeys_append, realKeys_word_boundary,
      realKeys_type_word_realistic, ih]

lemma pySplitF_flatten (l : List Char) :
    (pySplitF l).1 ++ ((pySplitF l).2.map (fun w => ' ' :: w)).flatten = l := by
  induction l with
  | nil => rfl
  | cons c cs ih =>
    by_cases h : c = ' '
    · subst h
      have hs : pySplitF (' ' :: cs) =
          ([], (pySplitF cs).1 :: (pySplitF cs).2) := by
        simp [pySplitF]
      rw [hs]
      simp only [List.map_cons, List.flatten_cons, List.nil_append,
        List.cons_append]
      rw [ih]
    · have hs : pySplitF (c :: cs) = (c :: (pySplitF cs).1, (pySplitF cs).2) := by
        simp [pySplitF, h]
      rw [hs]
      simp only [List.cons_append]
      rw [ih]

lemma char_key_events_space : char_key_events ' ' = [Ev.press "Space"] := by
  decide

lemma flatten_map_space_words (ws : List (List Char)) :
    (ws.map (fun w =>
      Ev.press "Space" :: (w.map char_key_events).flatten)).flatten =
    (((ws.map (fun w => ' ' :: w)).flatten).map char_key_events).flatten := by
  induction ws with
  | nil => rfl
  | cons w rest ih =>
    simp [List.map_append, List.flatten_append, ih, char_key_events_space]

/-- C5: for every input text, every configuration (mistakes enabled or
disabled) and every random sequence, stripping the injected mistake
events (wrong-key press, reaction delay, backspace, post-correction
delay) from the emitted stream and keeping the remaining real key
events yields exactly the concatenation of the key mappings of the
original text's characters — each space contributing its
`Press(Space)` at the corresponding word boundary. -/
theorem c5_round_trip (rng : Rng) (text : List Char) (base : ℤ)
    (rd hm tp : Bool) :
    realKeys (type_realistically rng text base rd hm tp) =
      (text.map char_key_events).flatten := by
  conv_rhs => rw [← pySplitF_flatten text]
  unfold type_realistically
  simp [realKeys_append, realKeys_type_word_realistic,
    realKeys_type_rest_words, realKeys, isKeyEv, List.map_append,
    List.flatten_append, flatten_map_space_words]

/-- Every sleep event of the stream suspends for a duration within
`[lo, hi]` seconds. -/
def SleepsIn (lo hi : ℚ) (l : List TEv) : Prop :=
  ∀ te ∈ l, ∀ s : ℚ, te.2 = Ev.sleep s → lo ≤ s ∧ s ≤ hi

lemma sleepsIn_nil (lo hi : ℚ) : SleepsIn lo hi [] := by
  intro te hte
  simp at hte

lemma sleepsIn_append {lo hi : ℚ} {l₁ l₂ : List TEv}
    (h₁ : SleepsIn lo hi l₁) (h₂ : SleepsIn lo hi l₂) :
    SleepsIn lo hi (l₁ ++ l₂) := by
  intro te hte
  rcases List.mem_append.1 hte with h | h
  · exact h₁ te h
  · exact h₂ te h

lemma sleepsIn_mono {lo hi lo' hi' : ℚ} {l : List TEv}
    (h : SleepsIn lo hi l) (hlo : lo' ≤ lo) (hhi : hi ≤ hi') :
    SleepsIn lo' hi' l := by
  intro te hte s hs
  obtain ⟨h₁, h₂⟩ := h te hte s hs
  exact ⟨hlo.trans h₁, h₂.trans hhi⟩

lemma sleepsIn_cons {lo hi : ℚ} {te : TEv} {l : List TEv} :
    SleepsIn lo hi (te :: l) ↔
      (∀ s : ℚ, te.2 = Ev.sleep s → lo ≤ s ∧ s ≤ hi) ∧ SleepsIn lo hi l := by
  unfold SleepsIn
  exact List.forall_mem_cons

lemma pyUniform_bounds {a b lo hi : ℚ} (hab : a ≤ b) (hlo : lo ≤ a)
    (hhi : b ≤ hi) (t : ℚ) :
    lo ≤ pyUniform a b t ∧ pyUniform a b t ≤ hi :=
  ⟨hlo.trans (le_pyUniform hab t), (pyUniform_le hab t).trans hhi⟩

lemma sleepsIn_press_character_key (rng : Rng) (t : Tag) (c : Char) (n : ℕ) :
    SleepsIn (1/50) (3/50) (press_character_key rng t c n).1 := by
  unfold press_character_key
  repeat' split
  all_goals
    simp only [sleepsIn_cons, sleepsIn_nil, and_true]
  all_goals
    norm_num [pyUniform_bounds (by norm_num : (1:ℚ)/50 ≤ 3/50) le_rfl le_rfl,
      pyUniform_bounds (by norm_num : (1:ℚ)/50 ≤ 1/20) le_rfl
        (by norm_num : (1:ℚ)/20 ≤ 3/50)]
  all_goals simp

lemma char_delay_false (rng : Rng) (c : Char) (base : ℤ) (n : ℕ) :
    char_delay rng c base false n = base := rfl

lemma hundred_jitter_sleep_bounds (rng : Rng) (c : Char) (n k : ℕ) :
    1/50 ≤ ((jittered_delay rng c 100 false n k : ℤ) : ℚ) / 1000 ∧
      ((jittered_delay rng c 100 false n k : ℤ) : ℚ) / 1000 ≤ 3/10 := by
  have h₁ := pyRandInt_jitter_lower k
  have h₂ := pyRandInt_jitter_upper k
  have hj : jittered_delay rng c 100 false n k = 100 + pyRandInt (-15) 15 k := by
    rw [jittered_delay, char_delay_false]
  rw [hj]
  have c85 : (85 : ℚ) ≤ ((100 + pyRandInt (-15) 15 k : ℤ) : ℚ) := by
    exact_mod_cast (by omega : (85 : ℤ) ≤ 100 + pyRandInt (-15) 15 k)
  have c115 : ((100 + pyRandInt (-15) 15 k : ℤ) : ℚ) ≤ 115 := by
    exact_mod_cast (by omega : 100 + pyRandInt (-15) 15 k ≤ (115 : ℤ))
  constructor
  · linarith
  · linarith

lemma sleepsIn_type_single_char_100 (rng : Rng) (t : Tag) (c : Char)
    (n : ℕ) :
    SleepsIn (1/50) (3/10) (type_single_char rng t c 100 false n).1 := by
  unfold type_single_char
  refine sleepsIn_append
    (sleepsIn_mono (sleepsIn_press_character_key rng t c _) le_rfl
      (by norm_num)) ?_
  simp only [sleepsIn_cons, sleepsIn_nil, and_true]
  intro s hs
  simp only [Ev.sleep.injEq] at hs
  rw [← hs]
  exact hundred_jitter_sleep_bounds rng c n _

lemma sleepsIn_type_char_step_plain (rng : Rng) (c : Char) (n : ℕ) :
    SleepsIn (1/50) (3/10) (type_char_step rng c 100 false false n).1 := by
  unfold type_char_step
  simp only [Bool.false_and, Bool.false_eq_true, if_false, List.nil_append]
  refine sleepsIn_append (sleepsIn_type_single_char_100 rng Tag.real c _) ?_
  split
  · simp only [sleepsIn_cons, sleepsIn_nil, and_true]
    intro s hs
    simp only [Ev.sleep.injEq] at hs
    rw [← hs]
    exact pyUniform_bounds (by norm_num) le_rfl (by norm_num) _
  · exact sleepsIn_nil _ _

lemma sleepsIn_type_word_plain (rng : Rng) (w : List Char) : ∀ n,
    SleepsIn (1/50) (3/10) (type_word_realistic rng w 100 false false n).1 := by
  induction w with
  | nil => intro n; exact sleepsIn_nil _ _
  | cons c cs ih =>
    intro n
    unfold type_word_realistic
    exact sleepsIn_append (sleepsIn_type_char_step_plain rng c n) (ih _)

lemma keyEvs_type_char_step_nomistake (rng : Rng) (c : Char) (base : ℤ)
    (rd : Bool) (n : ℕ) :
    keyEvs (type_char_step rng c base rd false n).1 = char_key_events c := by
  unfold type_char_step
  simp only [Bool.false_and, Bool.false_eq_true, if_false, List.nil_append]
  split
  all_goals simp [keyEvs_append, keyEvs_type_single_char, keyEvs, isKeyEv]

lemma keyEvs_type_word_nomistake (rng : Rng) (w : List Char) (base : ℤ)
    (rd : Bool) : ∀ n,
    keyEvs (type_word_realistic rng w base rd false n).1 =
      (w.map char_key_events).flatten := by
  induction w with
  | nil => intro n; rfl
  | cons c cs ih =>
    intro n
    unfold type_word_realistic
    simp [keyEvs_append, keyEvs_type_char_step_nomistake, ih]

lemma mem_keyEvs_of_mem {l : List TEv} {e : Ev}
    (he : isKeyEv e = true) (hm : e ∈ l.map Prod.snd) : e ∈ keyEvs l := by
  induction l with
  | nil => simp at hm
  | cons te rest ih =>
    obtain ⟨t, ev⟩ := te
    simp only [List.map_cons, List.mem_cons] at hm
    rcases hm with rfl | hm
    · simp [keyEvs, he]
    · unfold keyEvs
      split
      · exact List.mem_cons_of_mem _ (ih hm)
      · exact ih hm

/-- C1 as stated is false on the code: with the all-zero draw stream the
call `type_realistically("Hi!", base 100ms, no random delay, no mistakes,
no thinking pauses)` emits the expected seven key events and no
Backspace, but not every inter-event delay is 100ms — the source sleeps
uniform(0.02,0.06)s inside Shift chords, adds an unconditional ±15ms
jitter to each per-character delay, and appends micro- and final pauses,
so the stream contains sleeps different from 0.1s. -/
theorem c1_counterexample :
    ¬ (keyEvs (type_realistically rng0 ['H', 'i', '!'] 100 false false false)
        = [Ev.down "Shift", Ev.press "KeyH", Ev.up "Shift", Ev.press "KeyI",
           Ev.down "Shift", Ev.press "Digit1", Ev.up "Shift"] ∧
      Ev.press "Backspace" ∉
        (type_realistically rng0 ['H', 'i', '!'] 100 false false false).map
          Prod.snd ∧
      (∀ te ∈ type_realistically rng0 ['H', 'i', '!'] 100 false false false,
        ∀ s : ℚ, te.2 = Ev.sleep s → s = 1/10)) := by
  have hstream : type_realistically rng0 ['H', 'i', '!'] 100 false false
      false =
      [(Tag.real, Ev.down "Shift"), (Tag.real, Ev.sleep (1/50)),
       (Tag.real, Ev.press "KeyH"), (Tag.real, Ev.sleep (1/50)),
       (Tag.real, Ev.up "Shift"), (Tag.real, Ev.sleep (17/200)),
       (Tag.real, Ev.sleep (1/50)),
       (Tag.real, Ev.press "KeyI"), (Tag.real, Ev.sleep (17/200)),
       (Tag.real, Ev.sleep (1/50)),
       (Tag.real, Ev.down "Shift"), (Tag.real, Ev.sleep (1/50)),
       (Tag.real, Ev.press "Digit1"), (Tag.real, Ev.sleep (1/50)),
       (Tag.real, Ev.up "Shift"), (Tag.real, Ev.sleep (17/200)),
       (Tag.real, Ev.sleep (1/50)),
       (Tag.real, Ev.sleep (1/10))] := by
    norm_num [type_realistically, pySplitF, type_word_realistic,
      type_char_step, type_single_char, press_character_key, word_boundary,
      word_boundary_pause, type_rest_words, jittered_delay, char_delay,
      pyRandInt, pyUniform, pyRandom, clamp01, pyInt, rng0,
      shiftedDigitChars, otherShiftedChars, shiftDigitMap, shiftSymbolMap,
      specialCharMap, List.lookup]
    simp +decide [type_realistically, pySplitF, type_word_realistic,
      type_char_step, type_single_char, press_character_key, word_boundary,
      word_boundary_pause, type_rest_words, jittered_delay, char_delay,
      pyRandInt, pyUniform, pyRandom, clamp01, pyInt, rng0,
      shiftedDigitChars, otherShiftedChars, shiftDigitMap, shiftSymbolMap,
      specialCharMap, List.lookup]
  intro h
  have hs := h.2.2 (Tag.real, Ev.sleep (1/50))
    (by rw [hstream]; simp) (1/50) rfl
  norm_num at hs

/-- C1 (amended): the call of Scenario A emits exactly
`Down(Shift), Press(KeyH), Up(Shift), Press(KeyI), Down(Shift),
Press(Digit1), Up(Shift)` in order, with no Backspace anywhere, and
each per-character scheduled delay before jitter is exactly 100ms
(`delay = baseDelayMs` since `randomDelay = false`); however the
unconditional ±15ms jitter, the uniform(0.02,0.06)s intra-chord sleeps,
the optional uniform(0.02,0.08)s micro-pauses and the final
uniform(0.1,0.3)s pause mean the individual suspensions range over
[0.02s, 0.3s] rather than being exactly 0.1s. -/
theorem c1_scenario_a_amended (rng : Rng) :
    keyEvs (type_realistically rng ['H', 'i', '!'] 100 false false false) =
      [Ev.down "Shift", Ev.press "KeyH", Ev.up "Shift", Ev.press "KeyI",
       Ev.down "Shift", Ev.press "Digit1", Ev.up "Shift"] ∧
    Ev.press "Backspace" ∉
      (type_realistically rng ['H', 'i', '!'] 100 false false false).map
        Prod.snd ∧
    (∀ c n, char_delay rng c 100 false n = 100) ∧
    SleepsIn (1/50) (3/10)
      (type_realistically rng ['H', 'i', '!'] 100 false false false) := by
  have hshape : type_realistically rng ['H', 'i', '!'] 100 false false false =
      (type_word_realistic rng ['H', 'i', '!'] 100 false false 0).1 ++ [] ++
      [(Tag.real, Ev.sleep (pyUniform (1/10) (3/10)
        (rng.rats (type_word_realistic rng ['H', 'i', '!'] 100 false false
          0).2)))] := rfl
  have hkeys : keyEvs
      (type_realistically rng ['H', 'i', '!'] 100 false false false) =
      [Ev.down "Shift", Ev.press "KeyH", Ev.up "Shift", Ev.press "KeyI",
       Ev.down "Shift", Ev.press "Digit1", Ev.up "Shift"] := by
    rw [hshape, keyEvs_append, keyEvs_append, keyEvs_type_word_nomistake]
    simp only [keyEvs, isKeyEv, List.append_nil, Bool.false_eq_true,
      if_false]
    decide
  refine ⟨hkeys, ?_, fun c n => rfl, ?_⟩
  · intro hmem
    have hk : Ev.press "Backspace" ∈ keyEvs
        (type_realistically rng ['H', 'i', '!'] 100 false false false) :=
      mem_keyEvs_of_mem rfl hmem
    rw [hkeys] at hk
    simp at hk
  · rw [hshape]
    refine sleepsIn_append (sleepsIn_append
      (sleepsIn_type_word_plain rng _ _) (sleepsIn_nil _ _)) ?_
    simp only [sleepsIn_cons, sleepsIn_nil, and_true]
    intro s hs
    simp only [Ev.sleep.injEq] at hs
    rw [← hs]
    exact pyUniform_bounds (by norm_num) (by norm_num) le_rfl _

/-- Every event of the stream is tagged `real` (no injected mistake). -/
def AllReal (l : List TEv) : Prop := ∀ te ∈ l, te.1 = Tag.real

/-- No event of the stream is a `Backspace` press. -/
def NoBackspace (l : List TEv) : Prop :=
  ∀ te ∈ l, te.2 ≠ Ev.press "Backspace"

lemma allReal_nil : AllReal [] := by
  intro te hte
  simp at hte

lemma allReal_append {l₁ l₂ : List TEv} (h₁ : AllReal l₁) (h₂ : AllReal l₂) :
    AllReal (l₁ ++ l₂) := by
  intro te hte
  rcases List.mem_append.1 hte with h | h
  · exact h₁ te h
  · exact h₂ te h

lemma noBackspace_nil : NoBackspace [] := by
  intro te hte
  simp at hte

lemma noBackspace_append {l₁ l₂ : List TEv} (h₁ : NoBackspace l₁)
    (h₂ : NoBackspace l₂) : NoBackspace (l₁ ++ l₂) := by
  intro te hte
  rcases List.mem_append.1 hte with h | h
  · exact h₁ te h
  · exact h₂ te h

lemma lookup_mem_values {α β : Type} [BEq α] [LawfulBEq α]
    (l : List (α × β)) (a : α) (b : β) (h : l.lookup a = some b) :
    b ∈ l.map Prod.snd := by
  induction l with
  | nil => simp [List.lookup] at h
  | cons p t ih =>
    obtain ⟨k, v⟩ := p
    simp only [List.lookup] at h
    split at h
    · cases h
      simp
    · simpa using Or.inr (ih h)

lemma push_key_ne_backspace (x : Char) :
    String.push "Key" x ≠ "Backspace" := by
  intro h
  have hl := congrArg String.length h
  rw [String.length_push] at hl
  exact absurd hl (by decide)

lemma push_digit_ne_backspace (x : Char) :
    String.push "Digit" x ≠ "Backspace" := by
  intro h
  have hl := congrArg String.length h
  rw [String.length_push] at hl
  exact absurd hl (by decide)

lemma shiftDigitMap_value_ne_backspace (c : Char) (key : String)
    (h : shiftDigitMap.lookup c = some key) : key ≠ "Backspace" :=
  (by decide : ∀ b ∈ shiftDigitMap.map Prod.snd, b ≠ "Backspace") key
    (lookup_mem_values _ _ _ h)

lemma shiftSymbolMap_value_ne_backspace (c : Char) (key : String)
    (h : shiftSymbolMap.lookup c = some key) : key ≠ "Backspace" :=
  (by decide : ∀ b ∈ shiftSymbolMap.map Prod.snd, b ≠ "Backspace") key
    (lookup_mem_values _ _ _ h)

lemma specialCharMap_value_ne_backspace (c : Char) (key : String)
    (h : specialCharMap.lookup c = some key) : key ≠ "Backspace" :=
  (by decide : ∀ b ∈ specialCharMap.map Prod.snd, b ≠ "Backspace") key
    (lookup_mem_values _ _ _ h)

lemma noBackspace_press_character_key (rng : Rng) (t : Tag) (c : Char)
    (n : ℕ) : NoBackspace (press_character_key rng t c n).1 := by
  unfold press_character_key
  repeat' split
  all_goals intro te hte
  all_goals simp only [List.mem_cons, List.not_mem_nil, or_false] at hte
  all_goals
    rcases hte with rfl | rfl | rfl | rfl | rfl <;>
      (try simp [push_key_ne_backspace, push_digit_ne_backspace])
  all_goals
    rename_i key hkey
  all_goals
    intro heq
  all_goals
    first
      | exact (shiftDigitMap_value_ne_backspace _ _ hkey) heq
      | exact (shiftSymbolMap_value_ne_backspace _ _ hkey) heq
      | exact (specialCharMap_value_ne_backspace _ _ hkey) heq

lemma allReal_press_character_key (rng : Rng) (c : Char) (n : ℕ) :
    AllReal (press_character_key rng Tag.real c n).1 := by
  unfold press_character_key
  repeat' split
  all_goals intro te hte
  all_goals simp only [List.mem_cons, List.not_mem_nil, or_false] at hte
  all_goals rcases hte with rfl | rfl | rfl | rfl | rfl <;> rfl

lemma allReal_type_single_char (rng : Rng) (c : Char) (base : ℤ)
    (rd : Bool) (n : ℕ) :
    AllReal (type_single_char rng Tag.real c base rd n).1 := by
  unfold type_single_char
  refine allReal_append (allReal_press_character_key rng c _) ?_
  intro te hte
  simp only [List.mem_cons, List.not_mem_nil, or_false] at hte
  rcases hte with rfl
  rfl

lemma noBackspace_type_single_char (rng : Rng) (t : Tag) (c : Char)
    (base : ℤ) (rd : Bool) (n : ℕ) :
    NoBackspace (type_single_char rng t c base rd n).1 := by
  unfold type_single_char
  refine noBackspace_append (noBackspace_press_character_key rng t c _) ?_
  intro te hte
  simp only [List.mem_cons, List.not_mem_nil, or_false] at hte
  rcases hte with rfl
  simp

lemma allReal_type_char_step (rng : Rng) (c : Char) (base : ℤ)
    (rd hm : Bool) (n : ℕ) (h : (hm && rd) = false) :
    AllReal (type_char_step rng c base rd hm n).1 := by
  unfold type_char_step
  rw [h]
  simp only [Bool.false_eq_true, if_false]
  refine allReal_append (allReal_append allReal_nil
    (allReal_type_single_char rng c base rd _)) ?_
  split
  · intro te hte
    simp only [List.mem_cons, List.not_mem_nil, or_false] at hte
    rcases hte with rfl
    rfl
  · exact allReal_nil

lemma noBackspace_type_char_step (rng : Rng) (c : Char) (base : ℤ)
    (rd hm : Bool) (n : ℕ) (h : (hm && rd) = false) :
    NoBackspace (type_char_step rng c base rd hm n).1 := by
  unfold type_char_step
  rw [h]
  simp only [Bool.false_eq_true, if_false]
  refine noBackspace_append (noBackspace_append noBackspace_nil
    (noBackspace_type_single_char rng Tag.real c base rd _)) ?_
  split
  · intro te hte
    simp only [List.mem_cons, List.not_mem_nil, or_false] at hte
    rcases hte with rfl
    simp
  · exact noBackspace_nil

lemma allReal_type_word_realistic (rng : Rng) (w : List Char) (base : ℤ)
    (rd hm : Bool) (h : (hm && rd) = false) : ∀ n,
    AllReal (type_word_realistic rng w base rd hm n).1 := by
  induction w with
  | nil => intro n; exact allReal_nil
  | cons c cs ih =>
    intro n
    unfold type_word_realistic
    exact allReal_append (allReal_type_char_step rng c base rd hm n h) (ih _)

lemma noBackspace_type_word_realistic (rng : Rng) (w : List Char)
    (base : ℤ) (rd hm : Bool) (h : (hm && rd) = false) : ∀ n,
    NoBackspace (type_word_realistic rng w base rd hm n).1 := by
  induction w with
  | nil => intro n; exact noBackspace_nil
  | cons c cs ih =>
    intro n
    unfold type_word_realistic
    exact noBackspace_append (noBackspace_type_char_step rng c base rd hm n h)
      (ih _)

lemma allReal_word_boundary (rng : Rng) (tp : Bool) (n : ℕ) :
    AllReal (word_boundary rng tp n).1 := by
  unfold word_boundary
  intro te hte
  simp only [List.mem_cons, List.not_mem_nil, or_false] at hte
  rcases hte with rfl | rfl | rfl <;> rfl

lemma noBackspace_word_boundary (rng : Rng) (tp : Bool) (n : ℕ) :
    NoBackspace (word_boundary rng tp n).1 := by
  unfold word_boundary
  intro te hte
  simp only [List.mem_cons, List.not_mem_nil, or_false] at hte
  rcases hte with rfl | rfl | rfl <;> simp

lemma allReal_type_rest_words (rng : Rng) (ws : List (List Char))
    (base : ℤ) (rd hm tp : Bool) (h : (hm && rd) = false) : ∀ n,
    AllReal (type_rest_words rng ws base rd hm tp n).1 := by
  induction ws with
  | nil => intro n; exact allReal_nil
  | cons w rest ih =>
    intro n
    unfold type_rest_words
    exact allReal_append (allReal_append (allReal_word_boundary rng tp n)
      (allReal_type_word_realistic rng w base rd hm h _)) (ih _)

lemma noBackspace_type_rest_words (rng : Rng) (ws : List (List Char))
    (base : ℤ) (rd hm tp : Bool) (h : (hm && rd) = false) : ∀ n,
    NoBackspace (type_rest_words rng ws base rd hm tp n).1 := by
  induction ws with
  | nil => intro n; exact noBackspace_nil
  | cons w rest ih =>
    intro n
    unfold type_rest_words
    exact noBackspace_append
      (noBackspace_append (noBackspace_word_boundary rng tp n)
        (noBackspace_type_word_realistic rng w base rd hm h _)) (ih _)

/-- C2: for every input text, configuration and random sequence, if
`humanMistakes` is false or `randomDelay` is false, the emitted stream
contains no injected event at all — in particular no wrong-key press
and no `Press(Backspace)` correction anywhere. -/
theorem c2_no_mistakes (rng : Rng) (text : List Char) (base : ℤ)
    (rd hm tp : Bool) (h : hm = false ∨ rd = false) :
    AllReal (type_realistically rng text base rd hm tp) ∧
    NoBackspace (type_realistically rng text base rd hm tp) := by
  have hmrd : (hm && rd) = false := by
    rcases h with rfl | rfl <;> simp
  unfold type_realistically
  constructor
  · refine allReal_append (allReal_append
      (allReal_type_word_realistic rng _ base rd hm hmrd _)
      (allReal_type_rest_words rng _ base rd hm tp hmrd _)) ?_
    intro te hte
    simp only [List.mem_cons, List.not_mem_nil, or_false] at hte
    rcases hte with rfl
    rfl
  · refine noBackspace_append (noBackspace_append
      (noBackspace_type_word_realistic rng _ base rd hm hmrd _)
      (noBackspace_type_rest_words rng _ base rd hm tp hmrd _)) ?_
    intro te hte
    simp only [List.mem_cons, List.not_mem_nil, or_false] at hte
    rcases hte with rfl
    simp

/-- Witness for C2 at a concrete input: mistakes disabled, random delay
enabled, text "ab". -/
theorem c2_no_mistakes_witness :
    ((false : Bool) = false ∨ (true : Bool) = false) ∧
    AllReal (type_realistically rng0 ['a', 'b'] 120 true false true) ∧
    NoBackspace (type_realistically rng0 ['a', 'b'] 120 true false true) :=
  ⟨Or.inl rfl,
   (c2_no_mistakes rng0 ['a', 'b'] 120 true false true (Or.inl rfl)).1,
   (c2_no_mistakes rng0 ['a', 'b'] 120 true false true (Or.inl rfl)).2⟩

/-- The spec's character classes. -/
inductive CharacterClass where
  | homeRow
  | difficult
  | upper
  | digit
  | shiftedSymbol
  | unshiftedSymbol
  | other
deriving DecidableEq, Repr

/-- Modelled from the spec: `classify` evaluates the membership tests in
the fixed priority order HomeRow, Difficult, Upper, Digit,
ShiftedSymbol, UnshiftedSymbol, Other — first match wins. -/
def spec_classify (c : Char) : CharacterClass :=
  if c.toLower ∈ homeRowChars then .homeRow
  else if c.toLower ∈ difficultChars then .difficult
  else if c.isUpper then .upper
  else if c.isDigit then .digit
  else if c ∈ shiftedSymbolChars then .shiftedSymbol
  else if c ∈ unshiftedSymbolChars then .unshiftedSymbol
  else .other

/-- Modelled from the spec: the fixed multiplier carried by each class. -/
def spec_class_multiplier : CharacterClass → ℚ
  | .homeRow => 7/10
  | .difficult => 8/5
  | .upper => 13/10
  | .digit => 6/5
  | .shiftedSymbol => 9/5
  | .unshiftedSymbol => 11/10
  | .other => 1

/-- C3: the classifier is a total function agreeing everywhere with the
spec's priority-ordered classification and multipliers; in particular an
uppercase letter whose lowercase form is in the HomeRow (resp.
Difficult) set receives 0.7 (resp. 1.6), not the Upper multiplier
1.3. -/
theorem c3_classifier (c : Char) :
    get_char_difficulty_multiplier c =
      spec_class_multiplier (spec_classify c) ∧
    (c.isUpper = true → c.toLower ∈ homeRowChars →
      spec_classify c = .homeRow ∧
        get_char_difficulty_multiplier c = 7/10) ∧
    (c.isUpper = true → c.toLower ∈ difficultChars →
      spec_classify c = .difficult ∧
        get_char_difficulty_multiplier c = 8/5) := by
  unfold get_char_difficulty_multiplier spec_classify
  refine ⟨?_, ?_, ?_⟩
  · split_ifs <;> rfl
  · intro _ hmem
    simp [if_pos hmem]
  · intro _ hmem
    by_cases hh : c.toLower ∈ homeRowChars
    · exact absurd hmem ((by decide :
        ∀ x ∈ homeRowChars, x ∉ difficultChars) _ hh)
    · simp [if_neg hh, if_pos hmem]

/-- Witness for C3 at `'E'` (uppercase with home-row lowercase, class
HomeRow, multiplier 0.7) and at `'Q'` (uppercase with difficult
lowercase, class Difficult, multiplier 1.6). -/
theorem c3_classifier_witness :
    ('E'.isUpper = true) ∧ ('E'.toLower ∈ homeRowChars) ∧
    spec_classify 'E' = CharacterClass.homeRow ∧
    get_char_difficulty_multiplier 'E' = 7/10 ∧
    ('Q'.isUpper = true) ∧ ('Q'.toLower ∈ difficultChars) ∧
    spec_classify 'Q' = CharacterClass.difficult ∧
    get_char_difficulty_multiplier 'Q' = 8/5 :=
  ⟨by decide, by decide,
   ((c3_classifier 'E').2.1 (by decide) (by decide)).1,
   ((c3_classifier 'E').2.1 (by decide) (by decide)).2,
   by decide, by decide,
   ((c3_classifier 'Q').2.2 (by decide) (by decide)).1,
   ((c3_classifier 'Q').2.2 (by decide) (by decide)).2⟩

lemma multiplier_lower_bound (c : Char) :
    7/10 ≤ get_char_difficulty_multiplier c := by
  unfold get_char_difficulty_multiplier
  split_ifs <;> norm_num

/-- C4: with `randomDelay` the delay of `_type_single_char` is computed
as `base * multiplier(char) * uniform(0.7, 1.4)`, truncated to an int
and floored at 20ms; and since the multiplier is at least 0.7 and the
uniform draw at least 0.7, for a nonnegative base the scaled delay
before truncation and flooring is at least `base * 0.7 * 0.7`. -/
theorem c4_scaled_delay (rng : Rng) (c : Char) (base : ℤ) (n : ℕ)
    (hbase : 0 ≤ base) :
    char_delay rng c base true n =
      pyMax 20 (pyInt ((base : ℚ) * get_char_difficulty_multiplier c *
        pyUniform (7/10) (7/5) (rng.rats n))) ∧
    (base : ℚ) * (7/10) * (7/10) ≤
      (base : ℚ) * get_char_difficulty_multiplier c *
        pyUniform (7/10) (7/5) (rng.rats n) := by
  refine ⟨rfl, ?_⟩
  have hmult := multiplier_lower_bound c
  have huni : 7/10 ≤ pyUniform (7/10) (7/5) (rng.rats n) :=
    le_pyUniform (by norm_num) _
  have hb : (0 : ℚ) ≤ (base : ℚ) := by exact_mod_cast hbase
  have hmu : (7/10 : ℚ) * (7/10) ≤
      get_char_difficulty_multiplier c *
        pyUniform (7/10) (7/5) (rng.rats n) := by nlinarith
  calc (base : ℚ) * (7/10) * (7/10)
      = (base : ℚ) * ((7/10) * (7/10)) := by ring
    _ ≤ (base : ℚ) * (get_char_difficulty_multiplier c *
          pyUniform (7/10) (7/5) (rng.rats n)) :=
        mul_le_mul_of_nonneg_left hmu hb
    _ = (base : ℚ) * get_char_difficulty_multiplier c *
          pyUniform (7/10) (7/5) (rng.rats n) := by ring

/-- Witness for C4 at base 100, character `'a'`, the all-zero draw
stream. -/
theorem c4_scaled_delay_witness :
    (0 : ℤ) ≤ 100 ∧
    (char_delay rng0 'a' 100 true 0 =
      pyMax 20 (pyInt ((100 : ℚ) * get_char_difficulty_multiplier 'a' *
        pyUniform (7/10) (7/5) (rng0.rats 0))) ∧
    (100 : ℚ) * (7/10) * (7/10) ≤
      (100 : ℚ) * get_char_difficulty_multiplier 'a' *
        pyUniform (7/10) (7/5) (rng0.rats 0)) :=
  ⟨by norm_num, c4_scaled_delay rng0 'a' 100 0 (by norm_num)⟩

/-- C6 as stated is false on the code: in the floored (`randomDelay =
true`) path the per-character delay is at least 20ms and the jitter at
least -15ms, so the jittered delay can never be negative — for no draw
stream, character or base. -/
theorem c6_counterexample :
    ¬ ∃ (rng : Rng) (c : Char) (base : ℤ) (n k : ℕ),
      jittered_delay rng c base true n k < 0 := by
  rintro ⟨rng, c, base, n, k, hneg⟩
  unfold jittered_delay char_delay at hneg
  have h₁ := pyRandInt_jitter_lower k
  have h₂ := pyMax_left_le 20 (pyInt ((base : ℚ) *
    get_char_difficulty_multiplier c * pyUniform (7/10) (7/5) (rng.rats n)))
  simp only [if_true] at hneg
  omega

/-- C6 (amended): after the 20ms floor of the `randomDelay = true` path,
the ±15ms jitter leaves the delay at least 5ms, so it never goes below
zero there; a below-zero delay is reachable only on the
`randomDelay = false` path, where no floor is applied: with base delay 0
and jitter draw -15 the value passed to the sleep primitive is -15ms. -/
theorem c6_amended :
    (∀ (rng : Rng) (c : Char) (base : ℤ) (n k : ℕ),
      5 ≤ jittered_delay rng c base true n k) ∧
    jittered_delay rng0 'a' 0 false 0 0 = -15 := by
  constructor
  · intro rng c base n k
    unfold jittered_delay char_delay
    have h₁ := pyRandInt_jitter_lower k
    have h₂ := pyMax_left_le 20 (pyInt ((base : ℚ) *
      get_char_difficulty_multiplier c * pyUniform (7/10) (7/5) (rng.rats n)))
    simp only [if_true]
    omega
  · decide

/-- C7: with `thinkingPauses = false` the pause drawn at every word
boundary is the uniform(0.05,0.15)s draw, hence lies in
[0.05, 0.15] seconds; and the boundary block sleeps exactly that pause
before pressing Space. -/
theorem c7_boundary_pause (rng : Rng) (n : ℕ) :
    1/20 ≤ (word_boundary_pause rng false n).1 ∧
    (word_boundary_pause rng false n).1 ≤ 3/20 ∧
    (word_boundary rng false n).1 =
      [(Tag.real, Ev.sleep (word_boundary_pause rng false n).1),
       (Tag.real, Ev.press "Space"),
       (Tag.real, Ev.sleep (pyUniform (1/20) (3/25)
         (rng.rats (word_boundary_pause rng false n).2)))] := by
  refine ⟨?_, ?_, rfl⟩
  · exact le_pyUniform (by norm_num) _
  · exact pyUniform_le (by norm_num) _

lemma combo_downs_no_delete (rng : Rng) (keys : List String) : ∀ n,
    Ev.press "Delete" ∉ (combo_downs rng keys n).1 := by
  induction keys with
  | nil => intro n h; simp [combo_downs] at h
  | cons k ks ih =>
    intro n h
    simp only [combo_downs, List.mem_cons] at h
    rcases h with h | h | h
    · cases h
    · cases h
    · exact ih _ h

lemma combo_ups_no_delete (rng : Rng) (keys : List String) : ∀ n,
    Ev.press "Delete" ∉ (combo_ups rng keys n).1 := by
  induction keys with
  | nil => intro n h; simp [combo_ups] at h
  | cons k ks ih =>
    intro n h
    simp only [combo_ups, List.mem_cons] at h
    rcases h with h | h | h
    · cases h
    · cases h
    · exact ih _ h

lemma press_key_combo_no_delete (rng : Rng) (keys : List String) (n : ℕ) :
    Ev.press "Delete" ∉ (press_key_combo rng keys n).1 := by
  unfold press_key_combo
  intro h
  rcases List.mem_append.1 h with h | h
  · exact combo_downs_no_delete rng keys n h
  · rcases List.mem_cons.1 h with h | h
    · cases h
    · exact combo_ups_no_delete rng keys.reverse _ h

lemma delete_tail_exists (rng : Rng) (q : List Ev) (n₂ : ℕ)
    (hq : Ev.press "Delete" ∉ q) :
    ∃ (p : List Ev) (a b : ℚ),
      q ++ [Ev.sleep (pyUniform (1/10) (1/5) (rng.rats n₂)),
            Ev.press "Delete",
            Ev.sleep (pyUniform (1/20) (3/20) (rng.rats (n₂ + 1)))] =
        p ++ [Ev.sleep a, Ev.press "Delete", Ev.sleep b] ∧
      Ev.press "Delete" ∉ p ∧
      1/10 ≤ a ∧ a ≤ 1/5 ∧ 1/20 ≤ b ∧ b ≤ 3/20 :=
  ⟨q, _, _, rfl, hq,
   le_pyUniform (by norm_num) _, pyUniform_le (by norm_num) _,
   le_pyUniform (by norm_num) _, pyUniform_le (by norm_num) _⟩

lemma end_combo_no_delete (rng : Rng) (v : ℚ) (keys : List String) (n : ℕ) :
    Ev.press "Delete" ∉
      Ev.press "End" :: Ev.sleep v :: (press_key_combo rng keys n).1 := by
  intro hmem
  rcases List.mem_cons.1 hmem with h | hmem
  · exact absurd h (by decide)
  rcases List.mem_cons.1 hmem with h | hmem
  · cases h
  exact press_key_combo_no_delete rng keys n hmem

lemma selector_combo_no_delete (rng : Rng) (v : ℚ) (keys : List String)
    (n : ℕ) :
    Ev.press "Delete" ∉
      Ev.clickSelector :: Ev.sleep v :: (press_key_combo rng keys n).1 := by
  intro hmem
  rcases List.mem_cons.1 hmem with h | hmem
  · cases h
  rcases List.mem_cons.1 hmem with h | hmem
  · cases h
  exact press_key_combo_no_delete rng keys n hmem

/-- C8: every invocation of `clear_field` — whichever of the four
clearing strategies the draw selects, with or without a selector click —
emits a stream ending in a uniform(0.1,0.2)s wait, exactly one
`Press(Delete)`, and a uniform(0.05,0.15)s wait, with `Press(Delete)`
occurring nowhere earlier in the stream. -/
theorem c8_clear_field (rng : Rng) (hasSelector : Bool) :
    ∃ (p : List Ev) (a b : ℚ),
      clear_field rng hasSelector =
        p ++ [Ev.sleep a, Ev.press "Delete", Ev.sleep b] ∧
      Ev.press "Delete" ∉ p ∧
      1/10 ≤ a ∧ a ≤ 1/5 ∧ 1/20 ≤ b ∧ b ≤ 3/20 := by
  cases hasSelector with
  | false =>
    have hm : rng.nats 0 % 4 = 0 ∨ rng.nats 0 % 4 = 1 ∨
        rng.nats 0 % 4 = 2 ∨ rng.nats 0 % 4 = 3 := by omega
    unfold clear_field
    rcases hm with h | h | h | h <;>
      simp only [Bool.false_eq_true, if_false, h, List.nil_append] <;>
      (try norm_num)
    · exact delete_tail_exists rng (press_key_combo rng ["Control", "KeyA"]
        1).1 _ (press_key_combo_no_delete rng _ _)
    · exact delete_tail_exists rng
        [Ev.click 0 0, Ev.sleep (pyUniform (1/20) (1/10) (rng.rats 1)),
         Ev.click 0 0, Ev.sleep (pyUniform (1/20) (1/10) (rng.rats 2)),
         Ev.click 0 0, Ev.sleep (pyUniform (1/20) (1/10) (rng.rats 3))] 4
        (by simp)
    · exact delete_tail_exists rng (press_key_combo rng
        ["Shift", "Control", "End"] 1).1 _
        (press_key_combo_no_delete rng _ _)
    · exact delete_tail_exists rng
        (Ev.press "End" :: Ev.sleep (pyUniform (1/50) (1/20) (rng.rats 1)) ::
          (press_key_combo rng ["Shift", "Home"] 2).1) _
        (end_combo_no_delete rng _ _ _)
  | true =>
    have hm : rng.nats 1 % 4 = 0 ∨ rng.nats 1 % 4 = 1 ∨
        rng.nats 1 % 4 = 2 ∨ rng.nats 1 % 4 = 3 := by omega
    unfold clear_field
    rcases hm with h | h | h | h <;>
      simp only [if_true, h, List.nil_append] <;>
      (try norm_num)
    · exact delete_tail_exists rng
        (Ev.clickSelector ::
          Ev.sleep (pyUniform (1/10) (3/10) (rng.rats 0)) ::
          (press_key_combo rng ["Control", "KeyA"] 2).1) _
        (selector_combo_no_delete rng _ _ _)
    · exact delete_tail_exists rng
        [Ev.clickSelector, Ev.sleep (pyUniform (1/10) (3/10) (rng.rats 0)),
         Ev.click 0 0, Ev.sleep (pyUniform (1/20) (1/10) (rng.rats 2)),
         Ev.click 0 0, Ev.sleep (pyUniform (1/20) (1/10) (rng.rats 3)),
         Ev.click 0 0, Ev.sleep (pyUniform (1/20) (1/10) (rng.rats 4))] 5
        (by simp)
    · exact delete_tail_exists rng
        (Ev.clickSelector ::
          Ev.sleep (pyUniform (1/10) (3/10) (rng.rats 0)) ::
          (press_key_combo rng ["Shift", "Control", "End"] 2).1) _
        (selector_combo_no_delete rng _ _ _)
    · exact delete_tail_exists rng
        (Ev.clickSelector ::
          Ev.sleep (pyUniform (1/10) (3/10) (rng.rats 0)) ::
          Ev.press "End" :: Ev.sleep (pyUniform (1/50) (1/20) (rng.rats 2)) ::
          (press_key_combo rng ["Shift", "Home"] 3).1) _
        (by
          intro hmem
          rcases List.mem_cons.1 hmem with hc | hmem
          · cases hc
          rcases List.mem_cons.1 hmem with hc | hmem
          · cases hc
          exact end_combo_no_delete rng _ _ _ hmem)

/-- C9: the cancellation contract fails on the code.  `_press_character_key`
holds no try/finally, so a cancellation delivered at the intra-chord
sleep right after `down('Shift')` (the second dispatched operation while
typing `'H'`) leaves the stream with `Down(Shift)` emitted and no
matching `Up(Shift)` before the cancellation propagates. -/
theorem c9_stuck_modifier :
    Ev.down "Shift" ∈
      (press_character_key_cancelled rng0 Tag.real 'H' 0 2).map Prod.snd ∧
    Ev.up "Shift" ∉
      (press_character_key_cancelled rng0 Tag.real 'H' 0 2).map Prod.snd := by
  decide

/-- The lowercase ASCII letters: every character of the adjacency
table's value strings and of the fallback string `'qwerty'`. -/
def azChars : List Char :=
  ['a', 'b', 'c', 'd', 'e', 'f', 'g', 'h', 'i', 'j', 'k', 'l', 'm',
   'n', 'o', 'p', 'q', 'r', 's', 't', 'u', 'v', 'w', 'x', 'y', 'z']

lemma adjacent_list_az (c : Char) :
    (keyboard_layout.lookup c.toLower).getD qwertyChars ≠ [] ∧
    ∀ x ∈ (keyboard_layout.lookup c.toLower).getD qwertyChars,
      x ∈ azChars := by
  rcases h : keyboard_layout.lookup c.toLower with _ | v
  · simp only [Option.getD_none]
    exact ⟨by decide, by decide⟩
  · simp only [Option.getD_some]
    have hv := lookup_mem_values _ _ _ h
    revert hv
    exact (by decide : ∀ w ∈ keyboard_layout.map Prod.snd,
      w ≠ [] ∧ ∀ x ∈ w, x ∈ azChars) v

lemma get_adjacent_key_az (c : Char) (k : ℕ) :
    get_adjacent_key c k ∈ azChars := by
  unfold get_adjacent_key
  obtain ⟨hne, hsub⟩ := adjacent_list_az c
  have hlen : 0 <
      ((keyboard_layout.lookup c.toLower).getD qwertyChars).length :=
    List.length_pos.2 hne
  have hidx : k % ((keyboard_layout.lookup c.toLower).getD
      qwertyChars).length <
      ((keyboard_layout.lookup c.toLower).getD qwertyChars).length :=
    Nat.mod_lt _ hlen
  rw [List.getD_eq_getElem _ _ hidx]
  exact hsub _ (List.getElem_mem hidx)

lemma az_press_character_key (w : Char) (hw : w ∈ azChars) (rng : Rng)
    (t : Tag) (n : ℕ) :
    press_character_key rng t w n =
      ([(t, Ev.press (String.push "Key" w.toUpper))], n) := by
  have h1 : w.isUpper = false :=
    (by decide : ∀ x ∈ azChars, x.isUpper = false) w hw
  have h2 : w ∉ shiftedDigitChars :=
    (by decide : ∀ x ∈ azChars, x ∉ shiftedDigitChars) w hw
  have h3 : w ∉ otherShiftedChars :=
    (by decide : ∀ x ∈ azChars, x ∉ otherShiftedChars) w hw
  have h4 : w.isAlpha = true :=
    (by decide : ∀ x ∈ azChars, x.isAlpha = true) w hw
  unfold press_character_key
  simp [h1, h2, h3, h4]

lemma az_char_key_events (w : Char) (hw : w ∈ azChars) :
    char_key_events w = [Ev.press (String.push "Key" w.toUpper)] := by
  have h1 : w.isUpper = false :=
    (by decide : ∀ x ∈ azChars, x.isUpper = false) w hw
  have h2 : w ∉ shiftedDigitChars :=
    (by decide : ∀ x ∈ azChars, x ∉ shiftedDigitChars) w hw
  have h3 : w ∉ otherShiftedChars :=
    (by decide : ∀ x ∈ azChars, x ∉ otherShiftedChars) w hw
  have h4 : w.isAlpha = true :=
    (by decide : ∀ x ∈ azChars, x.isAlpha = true) w hw
  unfold char_key_events
  simp [h1, h2, h3, h4]

/-- C10: the wrong character chosen for an injected mistake is always a
lowercase ASCII letter (drawn from the adjacency table's value strings
or the fallback `'qwerty'`), so typing it emits exactly one
`Press(Key<Letter>)` — never a Shift chord, a raw-typing fallback or a
Space — and the whole injected segment's key events are exactly that
press followed by `Press(Backspace)`. -/
theorem c10_wrong_key (c : Char) (k : ℕ) (rng : Rng) (t : Tag)
    (base : ℤ) (rd : Bool) (n m : ℕ) :
    (get_adjacent_key c k).isLower = true ∧
    get_adjacent_key c k ∈ azChars ∧
    press_character_key rng t (get_adjacent_key c k) m =
      ([(t, Ev.press (String.push "Key" (get_adjacent_key c k).toUpper))],
       m) ∧
    keyEvs (mistake_events rng c base rd n).1 =
      [Ev.press (String.push "Key"
        (get_adjacent_key c (rng.nats n)).toUpper),
       Ev.press "Backspace"] := by
  have haz := get_adjacent_key_az c k
  refine ⟨(by decide : ∀ x ∈ azChars, x.isLower = true) _ haz, haz,
    az_press_character_key _ haz rng t m, ?_⟩
  unfold mistake_events
  rw [keyEvs_append, keyEvs_type_single_char,
    az_char_key_events _ (get_adjacent_key_az c (rng.nats n))]
  simp [keyEvs, isKeyEv]

end RealisticInput
